import Mathlib

/-!
Verification of the core of CDKeyGener (src/CDKeyGener.py): alphabet
construction, capacity estimation, grouping, key generation and the
output-format dispatch.  Pure Python functions are embedded as Lean
functions; the cryptographically random draws of
secrets.SystemRandom().choice are modelled by an explicit stream of
natural numbers (one number per draw, reduced modulo the alphabet size);
the unbounded while-loop of generate_keys is modelled with explicit fuel
(an out-of-fuel result stands for non-termination of the sampling loop,
which for an adversarial random stream is possible when unique=True).
Python str.upper / str.lower / str.strip are modelled character-wise
(exact on the ASCII data the program works with).
-/

deriving instance DecidableEq for Except

namespace CDKeyGener

/-- Error kinds of the generator.  The Python source raises ValueError at
three sites (small alphabet in build_alphabet, capacity check in
generate_keys, unknown format in save_keys); outOfFuel is the embedding's
marker for a sampling loop that has not terminated within the given fuel. -/
inductive GenError where
  | invalidAlphabet
  | capacityExceeded
  | unsupportedFormat
  | outOfFuel
deriving DecidableEq

/-- Line 41 of the source. -/
def DEFAULT_ALPHABET_NO_AMBIG : String := "ABCDEFGHJKMNPQRSTUVWXYZ23456789"

/-- Line 42: string.ascii_uppercase + string.digits. -/
def DEFAULT_ALPHABET_FULL : String := "ABCDEFGHIJKLMNOPQRSTUVWXYZ0123456789"

/-- GenConfig dataclass (lines 45-55).  count and length are natural
numbers (the claims only concern non-negative values and the loop
condition, the capacity comparison and range(length) agree with the
Python integers on that domain); groupsize is an Int because
apply_grouping distinguishes groupsize <= 0. -/
structure GenConfig where
  count : Nat := 10
  length : Nat := 25
  pattern : Option String := none
  alphabet : Option String := some DEFAULT_ALPHABET_NO_AMBIG
  avoid_ambiguous : Bool := true
  unique : Bool := true
  groupsize : Int := 0
  sep : String := "-"
  uppercase : Bool := true

/-- dict.fromkeys de-duplication (line 69): keep the first occurrence of
each character, preserving order.  seen accumulates already-kept chars. -/
def pyDedupAux (seen : List Char) : List Char → List Char
  | [] => []
  | c :: rest =>
    if c ∈ seen then pyDedupAux seen rest
    else c :: pyDedupAux (c :: seen) rest

def pyDedup (l : List Char) : List Char := pyDedupAux [] l

/-- alph.replace(ch, "") for a one-character needle (line 72). -/
def removeChar (l : List Char) (ch : Char) : List Char :=
  l.filter fun c => decide (c ≠ ch)

/-- The ambiguous characters stripped on line 71. -/
def AMBIGUOUS : List Char := "0O1IL".data

/-- Defaults chosen on line 66. -/
def default_alphabet (avoid_ambiguous : Bool) : String :=
  if avoid_ambiguous then DEFAULT_ALPHABET_NO_AMBIG else DEFAULT_ALPHABET_FULL

/-- Lines 63-66: Python `if custom:` is false for None and for the empty
string, in both cases falling back to the default alphabet. -/
def base_alphabet (custom : Option String) (avoid_ambiguous : Bool) : String :=
  match custom with
  | some s => if s.isEmpty then default_alphabet avoid_ambiguous else s
  | none => default_alphabet avoid_ambiguous

/-- Normalization pipeline of build_alphabet (lines 68-74): de-duplicate,
strip the ambiguous characters when requested, drop whitespace. -/
def normalize_alphabet (custom : Option String) (avoid_ambiguous : Bool) : List Char :=
  let a1 := pyDedup (base_alphabet custom avoid_ambiguous).data
  let a2 := if avoid_ambiguous then List.foldl removeChar a1 AMBIGUOUS else a1
  a2.filter fun c => !c.isWhitespace

/-- build_alphabet (lines 62-78). -/
def build_alphabet (custom : Option String) (avoid_ambiguous : Bool) :
    Except GenError String :=
  let a := normalize_alphabet custom avoid_ambiguous
  if a.length < 2 then .error .invalidAlphabet else .ok ⟨a⟩

/-- capacity_estimate (lines 81-89).  On Lean naturals the pow never
raises, so the OverflowError branch (which also returns the ceiling) is
not needed. -/
def capacity_estimate (alphabet_len keyspace_len : Nat) : Nat :=
  let val := alphabet_len ^ keyspace_len
  if val < 10 ^ 18 then val else 10 ^ 18

/-- The slices raw[i:i+groupsize] for i in range(0, len(raw), groupsize)
(line 95), for groupsize >= 1: range(0, n, g) is the list of the
ceil(n/g) multiples of g below n, and the slice raw[i:i+g] is
take g (drop i raw). -/
def chunkList (g : Nat) (l : List Char) : List (List Char) :=
  (List.range' 0 ((l.length + g - 1) / g) g).map fun i => (l.drop i).take g

/-- Python sep.join(parts). -/
def joinSep (sep : List Char) : List (List Char) → List Char
  | [] => []
  | [p] => p
  | p :: q :: rest => p ++ sep ++ joinSep sep (q :: rest)

/-- apply_grouping (lines 92-96). -/
def apply_grouping (raw : String) (groupsize : Int) (sep : String) : String :=
  if groupsize ≤ 0 then raw
  else ⟨joinSep sep.data (chunkList groupsize.toNat raw.data)⟩

/-- rng.choice(alphabet) (lines 106 and 112), modelled for a non-empty
alphabet: the random draw r selects the character at index
r mod len(alphabet).  The default is never reached when the alphabet is
non-empty. -/
def choice (alphabet : String) (r : Nat) : Char :=
  alphabet.data.getD (r % alphabet.data.length) 'A'

/-- str.upper modelled character-wise. -/
def pyUpper (s : String) : String := ⟨s.data.map Char.toUpper⟩

/-- key.upper() if cfg.uppercase else key (lines 110 and 114). -/
def upperIf (b : Bool) (s : String) : String := if b then pyUpper s else s

/-- Conditional uppercasing of a single character (used to state what
upperIf does position by position). -/
def upperChar (b : Bool) (c : Char) : Char := if b then c.toUpper else c

/-- Python `if cfg.pattern:` (lines 102 and 118) is true only for a
non-None, non-empty pattern; this helper returns the pattern exactly when
that test succeeds. -/
def patternOf (cfg : GenConfig) : Option String :=
  match cfg.pattern with
  | some p => if p.isEmpty then none else some p
  | none => none

/-- The pattern loop of generate_one (lines 103-108): placeholder
characters X consume the next random draw (index i in the stream), all
other characters are copied literally. -/
def pattern_expand (alphabet : String) (r : Nat → Nat) : List Char → Nat → List Char
  | [], _ => []
  | c :: rest, i =>
    if c = 'X' then choice alphabet (r i) :: pattern_expand alphabet r rest (i + 1)
    else c :: pattern_expand alphabet r rest i

/-- generate_one (lines 99-114); r is the stream of random draws used by
this one key. -/
def generate_one (cfg : GenConfig) (alphabet : String) (r : Nat → Nat) : String :=
  match patternOf cfg with
  | some p => upperIf cfg.uppercase ⟨pattern_expand alphabet r p.data 0⟩
  | none =>
    let raw : String := ⟨(List.range cfg.length).map fun i => choice alphabet (r i)⟩
    upperIf cfg.uppercase (apply_grouping raw cfg.groupsize cfg.sep)

/-- keyspace_length (lines 117-120): number of X placeholders in pattern
mode, else the configured length. -/
def keyspace_length (cfg : GenConfig) : Nat :=
  match patternOf cfg with
  | some p => (p.data.filter fun c => decide (c = 'X')).length
  | none => cfg.length

/-- The while-loop of generate_keys (lines 134-162).  rng gives each
attempt its own stream of draws; the attempts counter of the source only
gates log messages and does not influence the produced keys, so it is not
carried.  Python's `if cfg.unique and k in seen` set-membership test is
the list membership below, and seen.add(k) is cons. -/
def gen_loop (cfg : GenConfig) (alphabet : String) (rng : Nat → Nat → Nat) :
    Nat → Nat → List String → List String → Except GenError (List String)
  | 0, _, keys, _ =>
    if cfg.count ≤ keys.length then .ok keys else .error .outOfFuel
  | fuel + 1, attempt, keys, seen =>
    if cfg.count ≤ keys.length then .ok keys
    else
      let k := generate_one cfg alphabet (rng attempt)
      if cfg.unique = true ∧ k ∈ seen then
        gen_loop cfg alphabet rng fuel (attempt + 1) keys seen
      else
        gen_loop cfg alphabet rng fuel (attempt + 1) (keys ++ [k])
          (if cfg.unique = true then k :: seen else seen)

/-- generate_keys (lines 123-162).  Line 124 calls build_alphabet with
None when cfg.alphabet is None and with cfg.alphabet otherwise, i.e. with
cfg.alphabet's value in both cases. -/
def generate_keys (cfg : GenConfig) (rng : Nat → Nat → Nat) (fuel : Nat) :
    Except GenError (List String) :=
  match build_alphabet cfg.alphabet cfg.avoid_ambiguous with
  | .error e => .error e
  | .ok alphabet =>
    let ks_len := keyspace_length cfg
    let cap := capacity_estimate alphabet.data.length ks_len
    if cfg.unique = true ∧ cap ≠ 10 ^ 18 ∧ cap < cfg.count then
      .error .capacityExceeded
    else gen_loop cfg alphabet rng fuel 0 [] []

/-- The three serializers of save_keys. -/
inductive SaveFormat where
  | txt
  | csv
  | json
deriving DecidableEq

/-- str.lower modelled character-wise. -/
def pyLower (s : String) : String := ⟨s.data.map Char.toLower⟩

/-- str.strip(): drop leading and trailing whitespace. -/
def pyStrip (s : String) : String :=
  ⟨((s.data.dropWhile Char.isWhitespace).reverse.dropWhile Char.isWhitespace).reverse⟩

/-- fmt.lower().strip() (line 166). -/
def normalize_format (fmt : String) : String := pyStrip (pyLower fmt)

/-- The format dispatch of save_keys (lines 165-188): which serializer a
format token selects, or the unknown-format failure.  The actual file
writing performed by each serializer is I/O and is outside this model. -/
def save_keys_dispatch (fmt : String) : Except GenError SaveFormat :=
  let f := normalize_format fmt
  if f = "txt" then .ok .txt
  else if f = "csv" then .ok .csv
  else if f = "json" then .ok .json
  else .error .unsupportedFormat

/-- Claim-side predicate for C4, exactly as the claim words it: the key
has the pattern's length, literal positions of the pattern are preserved
unchanged, and placeholder positions hold a character of the alphabet. -/
def template_shapeAux (alphabet : List Char) : List Char → List Char → Bool
  | [], [] => true
  | pc :: ps, kc :: ks =>
    (if pc = 'X' then alphabet.contains kc else kc == pc) &&
      template_shapeAux alphabet ps ks
  | _, _ => false

def template_shape (patt alphabet key : String) : Bool :=
  template_shapeAux alphabet.data patt.data key.data

/-- Corrected shape predicate for C4: the same as template_shape except
that every character of the key is the uppercase-if-configured image of
what the claim expects (the source uppercases the whole assembled key,
literals included, when cfg.uppercase is set). -/
def template_shape_upperAux (alphabet : List Char) (u : Bool) : List Char → List Char → Bool
  | [], [] => true
  | pc :: ps, kc :: ks =>
    (if pc = 'X' then alphabet.any fun c => kc == upperChar u c
     else kc == upperChar u pc) &&
      template_shape_upperAux alphabet u ps ks
  | _, _ => false

def template_shape_upper (patt alphabet : String) (u : Bool) (key : String) : Bool :=
  template_shape_upperAux alphabet.data u patt.data key.data

/-- Claim-side predicate for C5: the key is the grouping of some raw
string of the configured length all of whose characters come from the
alphabet (so every character outside the inserted separators is an
alphabet character). -/
def fixed_shape (alphabet sep : String) (len : Nat) (gs : Int) (key : String) : Prop :=
  ∃ raw : String, raw.length = len ∧ (∀ c ∈ raw.data, c ∈ alphabet.data) ∧
    key = apply_grouping raw gs sep

/-! Helper lemmas. -/

theorem capacity_estimate_le (a k : Nat) : capacity_estimate a k ≤ 10 ^ 18 := by
  simp only [capacity_estimate]
  split <;> omega

theorem capacity_estimate_eq_min (a k : Nat) :
    capacity_estimate a k = min (a ^ k) (10 ^ 18) := by
  simp only [capacity_estimate]
  split <;> omega

theorem build_alphabet_ok_data {custom : Option String} {av : Bool} {a : String}
    (h : build_alphabet custom av = .ok a) :
    a.data = normalize_alphabet custom av ∧ 2 ≤ (normalize_alphabet custom av).length := by
  simp only [build_alphabet] at h
  split at h
  · simp at h
  · injection h with h2
    subst h2
    exact ⟨rfl, by omega⟩

theorem build_alphabet_ok_ne_nil {custom : Option String} {av : Bool} {a : String}
    (h : build_alphabet custom av = .ok a) : a.data ≠ [] := by
  obtain ⟨hd, hl⟩ := build_alphabet_ok_data h
  intro hnil
  rw [hd] at hnil
  rw [hnil] at hl
  simp at hl

theorem choice_mem {alphabet : String} (h : alphabet.data ≠ []) (r : Nat) :
    choice alphabet r ∈ alphabet.data := by
  unfold choice
  have hlen : 0 < alphabet.data.length := List.length_pos.mpr h
  have hlt : r % alphabet.data.length < alphabet.data.length := Nat.mod_lt _ hlen
  rw [List.getD_eq_getElem _ _ hlt]
  exact List.getElem_mem hlt

theorem upperIf_data (b : Bool) (s : String) :
    (upperIf b s).data = s.data.map (upperChar b) := by
  cases b
  · rw [show upperChar false = id from funext fun c => rfl, List.map_id]
    rfl
  · rw [show upperChar true = Char.toUpper from funext fun c => rfl]
    rfl

theorem upperIf_length (b : Bool) (s : String) : (upperIf b s).length = s.length := by
  show (upperIf b s).data.length = s.data.length
  rw [upperIf_data, List.length_map]

theorem chunkList_length (g : Nat) (l : List Char) :
    (chunkList g l).length = (l.length + g - 1) / g := by
  simp [chunkList]

theorem ceil_div_succ {g n : Nat} (hg : 0 < g) (hn : 1 ≤ n) :
    (n + g - 1) / g = ((n - g) + g - 1) / g + 1 := by
  rw [show n + g - 1 = (n - 1) + g from by omega, Nat.add_div_right _ hg]
  rcases le_or_lt g n with h | h
  · rw [show (n - g) + g - 1 = n - 1 from by omega]
  · rw [show (n - g) + g - 1 = g - 1 from by omega,
      Nat.div_eq_of_lt (show g - 1 < g from by omega),
      Nat.div_eq_of_lt (show n - 1 < g from by omega)]

theorem chunkList_flatten_aux {g : Nat} (hg : 0 < g) :
    ∀ n (l : List Char), l.length ≤ n → (chunkList g l).flatten = l := by
  intro n
  induction n with
  | zero =>
    intro l hl
    have hnil : l = [] := List.eq_nil_of_length_eq_zero (by omega)
    subst hnil
    simp [chunkList, Nat.div_eq_of_lt (show 0 + g - 1 < g from by omega)]
  | succ n ih =>
    intro l hl
    by_cases hnil : l = []
    · subst hnil
      simp [chunkList, Nat.div_eq_of_lt (show 0 + g - 1 < g from by omega)]
    · have hlen : 1 ≤ l.length := List.length_pos.mpr hnil
      rw [chunkList, ceil_div_succ hg hlen, List.range'_succ, List.map_cons,
        List.flatten_cons, Nat.zero_add]
      have hsh : List.range' g (((l.length - g) + g - 1) / g) g =
          (List.range' 0 (((l.length - g) + g - 1) / g) g).map (g + ·) := by
        rw [List.map_add_range', Nat.add_zero]
      rw [hsh, List.map_map]
      have hck : (List.range' 0 (((l.length - g) + g - 1) / g) g).map
            ((fun i => (l.drop i).take g) ∘ (g + ·)) = chunkList g (l.drop g) := by
        rw [chunkList]
        simp only [List.length_drop, List.drop_drop]
        rfl
      rw [hck, ih (l.drop g) (by simp only [List.length_drop]; omega)]
      rw [List.drop_zero, List.take_append_drop]

theorem chunkList_flatten {g : Nat} (hg : 0 < g) (l : List Char) :
    (chunkList g l).flatten = l :=
  chunkList_flatten_aux hg l.length l le_rfl

theorem chunkList_mem {g : Nat} (hg : 0 < g) {l part : List Char}
    (h : part ∈ chunkList g l) :
    part ≠ [] ∧ part.length ≤ g ∧ ∀ c ∈ part, c ∈ l := by
  simp only [chunkList, List.mem_map] at h
  obtain ⟨i, hi, rfl⟩ := h
  rw [List.mem_range'] at hi
  obtain ⟨k, hk, rfl⟩ := hi
  have hkn : g * k < l.length := by
    have h2 : (k + 1) * g ≤ l.length + g - 1 := (Nat.le_div_iff_mul_le hg).mp hk
    have h3 : (k + 1) * g = g * k + g := by ring
    omega
  refine ⟨?_, List.length_take_le _ _, ?_⟩
  · intro he
    rcases List.take_eq_nil_iff.mp he with h0 | h0
    · omega
    · rw [List.drop_eq_nil_iff] at h0
      omega
  · intro c hc
    exact List.drop_subset _ _ (List.take_subset _ _ hc)

theorem chunkList_getElem {g : Nat} (hg : 0 < g) (l : List Char) (i : Nat)
    (h : i + 1 < (chunkList g l).length) :
    ((chunkList g l).get ⟨i, Nat.lt_of_succ_lt h⟩).length = g := by
  rw [chunkList_length] at h
  simp only [chunkList, List.get_eq_getElem, List.getElem_map, List.getElem_range',
    List.length_take, List.length_drop]
  have h2 : (i + 2) * g ≤ l.length + g - 1 :=
    (Nat.le_div_iff_mul_le hg).mp (by omega)
  have h3 : (i + 2) * g = g * i + g + g := by ring
  omega

theorem joinSep_length (sep : List Char) :
    ∀ parts : List (List Char),
      (joinSep sep parts).length =
        (parts.map List.length).sum + sep.length * (parts.length - 1)
  | [] => by simp [joinSep]
  | [p] => by simp [joinSep]
  | p :: q :: rest => by
    have ih := joinSep_length sep (q :: rest)
    simp only [joinSep, List.length_append, ih, List.map_cons, List.sum_cons,
      List.length_cons, Nat.add_sub_cancel, Nat.mul_succ]
    omega

theorem apply_grouping_le_zero {gs : Int} (h : gs ≤ 0) (raw sep : String) :
    apply_grouping raw gs sep = raw := by
  simp [apply_grouping, h]

theorem apply_grouping_pos {gs : Int} (h : 0 < gs) (raw sep : String) :
    apply_grouping raw gs sep = ⟨joinSep sep.data (chunkList gs.toNat raw.data)⟩ := by
  rw [apply_grouping, if_neg (by omega)]

theorem apply_grouping_length_pos {gs : Int} (hgs : 0 < gs) (raw sep : String) :
    (apply_grouping raw gs sep).length =
      raw.length + sep.length * ((raw.length + gs.toNat - 1) / gs.toNat - 1) := by
  have hg : 0 < gs.toNat := by omega
  rw [apply_grouping_pos hgs]
  show (joinSep sep.data (chunkList gs.toNat raw.data)).length = _
  rw [joinSep_length]
  have h1 : ((chunkList gs.toNat raw.data).map List.length).sum = raw.data.length := by
    rw [← List.length_flatten, chunkList_flatten hg]
  rw [h1, chunkList_length]
  rfl

theorem gen_loop_ok_length {cfg : GenConfig} {alph : String} {rng : Nat → Nat → Nat} :
    ∀ (fuel attempt : Nat) (keys seen ks : List String), keys.length ≤ cfg.count →
      gen_loop cfg alph rng fuel attempt keys seen = .ok ks →
      ks.length = cfg.count := by
  intro fuel
  induction fuel with
  | zero =>
    intro att keys seen ks hle h
    simp only [gen_loop] at h
    split at h
    · injection h with h2
      subst h2
      omega
    · simp at h
  | succ n ih =>
    intro att keys seen ks hle h
    simp only [gen_loop] at h
    split at h
    · injection h with h2
      subst h2
      omega
    · split at h
      · exact ih _ _ _ _ hle h
      · refine ih _ _ _ _ ?_ h
        simp only [List.length_append, List.length_cons, List.length_nil]
        omega

theorem gen_loop_nodup {cfg : GenConfig} {alph : String} {rng : Nat → Nat → Nat}
    (hu : cfg.unique = true) :
    ∀ (fuel attempt : Nat) (keys seen ks : List String), keys.Nodup →
      (∀ x ∈ keys, x ∈ seen) →
      gen_loop cfg alph rng fuel attempt keys seen = .ok ks → ks.Nodup := by
  intro fuel
  induction fuel with
  | zero =>
    intro att keys seen ks hnd _ h
    simp only [gen_loop] at h
    split at h
    · injection h with h2
      subst h2
      exact hnd
    · simp at h
  | succ n ih =>
    intro att keys seen ks hnd hsub h
    simp only [gen_loop] at h
    split at h
    · injection h with h2
      subst h2
      exact hnd
    · split at h
      case isTrue => exact ih _ _ _ _ hnd hsub h
      case isFalse hcond =>
        have hnotseen : generate_one cfg alph (rng att) ∉ seen := by
          intro hmem
          exact hcond ⟨hu, hmem⟩
        refine ih _ _ _ _ ?_ ?_ h
        · rw [List.nodup_append]
          refine ⟨hnd, List.nodup_singleton _, ?_⟩
          intro x hx
          simp only [List.mem_singleton]
          intro he
          subst he
          exact hnotseen (hsub _ hx)
        · intro x hx
          rcases List.mem_append.mp hx with hx | hx
          · exact List.mem_cons_of_mem _ (hsub x hx)
          · simp only [List.mem_singleton] at hx
            subst hx
            exact List.mem_cons_self _ _

theorem gen_loop_mem_origin {cfg : GenConfig} {alph : String} {rng : Nat → Nat → Nat} :
    ∀ (fuel attempt : Nat) (keys seen ks : List String),
      gen_loop cfg alph rng fuel attempt keys seen = .ok ks →
      ∀ x ∈ ks, x ∈ keys ∨ ∃ a, x = generate_one cfg alph (rng a) := by
  intro fuel
  induction fuel with
  | zero =>
    intro att keys seen ks h x hx
    simp only [gen_loop] at h
    split at h
    · injection h with h2
      subst h2
      exact Or.inl hx
    · simp at h
  | succ n ih =>
    intro att keys seen ks h x hx
    simp only [gen_loop] at h
    split at h
    · injection h with h2
      subst h2
      exact Or.inl hx
    · split at h
      case isTrue => exact ih _ _ _ _ h x hx
      case isFalse =>
        rcases ih _ _ _ _ h x hx with hmem | hgen
        · rcases List.mem_append.mp hmem with hk | hk
          · exact Or.inl hk
          · simp only [List.mem_singleton] at hk
            exact Or.inr ⟨att, hk⟩
        · exact Or.inr hgen

theorem gen_loop_ne_capacity {cfg : GenConfig} {alph : String} {rng : Nat → Nat → Nat} :
    ∀ (fuel attempt : Nat) (keys seen : List String),
      gen_loop cfg alph rng fuel attempt keys seen ≠ .error .capacityExceeded := by
  intro fuel
  induction fuel with
  | zero =>
    intro att keys seen h
    simp only [gen_loop] at h
    split at h <;> simp at h
  | succ n ih =>
    intro att keys seen h
    simp only [gen_loop] at h
    split at h
    · simp at h
    · split at h
      · exact ih _ _ _ h
      · exact ih _ _ _ h

theorem gen_loop_total {cfg : GenConfig} {alph : String} {rng : Nat → Nat → Nat}
    (hu : cfg.unique = false) :
    ∀ (fuel attempt : Nat) (keys seen : List String),
      cfg.count ≤ keys.length + fuel →
      ∃ ks, gen_loop cfg alph rng fuel attempt keys seen = .ok ks := by
  intro fuel
  induction fuel with
  | zero =>
    intro att keys seen hle
    refine ⟨keys, ?_⟩
    simp only [gen_loop]
    rw [if_pos (by omega)]
  | succ n ih =>
    intro att keys seen hle
    by_cases hdone : cfg.count ≤ keys.length
    · refine ⟨keys, ?_⟩
      simp only [gen_loop]
      rw [if_pos hdone]
    · have hcond : ¬(cfg.unique = true ∧
          generate_one cfg alph (rng att) ∈ seen) := by
        intro hc
        rw [hu] at hc
        exact Bool.false_ne_true hc.1
      obtain ⟨ks, hks⟩ := ih (att + 1)
        (keys ++ [generate_one cfg alph (rng att)])
        (if cfg.unique = true then generate_one cfg alph (rng att) :: seen else seen)
        (by simp only [List.length_append, List.length_cons, List.length_nil]; omega)
      refine ⟨ks, ?_⟩
      simp only [gen_loop]
      rw [if_neg hdone, if_neg hcond]
      exact hks

theorem mem_foldl_removeChar :
    ∀ (chars l : List Char) (c : Char), c ∈ List.foldl removeChar l chars →
      c ∈ l ∧ ∀ ch ∈ chars, c ≠ ch := by
  intro chars
  induction chars with
  | nil =>
    intro l c h
    exact ⟨h, by simp⟩
  | cons ch rest ih =>
    intro l c h
    rw [List.foldl_cons] at h
    obtain ⟨h1, h2⟩ := ih _ c h
    rw [removeChar, List.mem_filter] at h1
    obtain ⟨hl, hne⟩ := h1
    refine ⟨hl, ?_⟩
    intro x hx
    rcases List.mem_cons.mp hx with rfl | hx
    · exact of_decide_eq_true hne
    · exact h2 x hx

theorem template_shape_upper_expand {alph : String} (hne : alph.data ≠ []) (u : Bool)
    (r : Nat → Nat) :
    ∀ (p : List Char) (i : Nat),
      template_shape_upperAux alph.data u p
        ((pattern_expand alph r p i).map (upperChar u)) = true := by
  intro p
  induction p with
  | nil => intro i; rfl
  | cons c ps ih =>
    intro i
    by_cases hc : c = 'X'
    · subst hc
      simp only [pattern_expand, if_pos rfl, List.map_cons, template_shape_upperAux,
        Bool.and_eq_true]
      refine ⟨?_, ih (i + 1)⟩
      rw [if_pos trivial, List.any_eq_true]
      exact ⟨choice alph (r i), choice_mem hne (r i), beq_self_eq_true _⟩
    · simp only [pattern_expand, if_neg hc, List.map_cons, template_shape_upperAux,
        if_neg hc, Bool.and_eq_true]
      exact ⟨beq_self_eq_true _, ih i⟩

theorem generate_one_pattern {cfg : GenConfig} {alph p : String}
    (hp : patternOf cfg = some p) (hne : alph.data ≠ []) (r : Nat → Nat) :
    template_shape_upper p alph cfg.uppercase (generate_one cfg alph r) = true := by
  unfold generate_one
  rw [hp]
  unfold template_shape_upper
  rw [upperIf_data]
  exact template_shape_upper_expand hne cfg.uppercase r p.data 0

theorem generate_one_fixed {cfg : GenConfig} {alph : String}
    (hp : patternOf cfg = none) (hne : alph.data ≠ []) (r : Nat → Nat) :
    ∃ raw : String, raw.length = cfg.length ∧ (∀ c ∈ raw.data, c ∈ alph.data) ∧
      generate_one cfg alph r =
        upperIf cfg.uppercase (apply_grouping raw cfg.groupsize cfg.sep) := by
  refine ⟨⟨(List.range cfg.length).map fun i => choice alph (r i)⟩, ?_, ?_, ?_⟩
  · show ((List.range cfg.length).map fun i => choice alph (r i)).length = _
    rw [List.length_map, List.length_range]
  · intro c hc
    simp only [List.mem_map, List.mem_range] at hc
    obtain ⟨i, _, rfl⟩ := hc
    exact choice_mem hne (r i)
  · unfold generate_one
    rw [hp]

/-! Concrete configurations and random streams used by the witnesses and
counterexamples. -/

def rngW : Nat → Nat → Nat := fun a _ => a

def rng0 : Nat → Nat → Nat := fun _ _ => 0

def cfgW : GenConfig :=
  { count := 2, length := 1, pattern := none, alphabet := some "AB",
    avoid_ambiguous := false, unique := true, groupsize := 0, sep := "-",
    uppercase := true }

def cfgC3 : GenConfig :=
  { count := 3, length := 1, pattern := none, alphabet := some "AB",
    avoid_ambiguous := false, unique := true, groupsize := 0, sep := "-",
    uppercase := true }

def cfgC4 : GenConfig :=
  { count := 1, length := 25, pattern := some "aX", alphabet := some "AB",
    avoid_ambiguous := false, unique := true, groupsize := 0, sep := "-",
    uppercase := true }

def cfgC5 : GenConfig :=
  { count := 1, length := 1, pattern := none, alphabet := some "ab",
    avoid_ambiguous := false, unique := false, groupsize := 0, sep := "-",
    uppercase := true }

/-! The claims. -/

/-- C1: whenever generate_keys returns a list of keys, it returns exactly
cfg.count of them (the loop accepts keys until exactly count are
collected); moreover, for unique=false runs (where no draw is rejected)
fuel equal to count always suffices, so the function does return.
Termination of unique=true runs is probabilistic and is represented by the
fuel parameter. -/
theorem generate_keys_count :
    (∀ (cfg : GenConfig) (rng : Nat → Nat → Nat) (fuel : Nat) (ks : List String),
      generate_keys cfg rng fuel = .ok ks → ks.length = cfg.count) ∧
    (∀ (cfg : GenConfig) (rng : Nat → Nat → Nat) (alph : String),
      cfg.unique = false →
      build_alphabet cfg.alphabet cfg.avoid_ambiguous = .ok alph →
      ∃ ks, generate_keys cfg rng cfg.count = .ok ks ∧ ks.length = cfg.count) := by
  have hmain : ∀ (cfg : GenConfig) (rng : Nat → Nat → Nat) (fuel : Nat)
      (ks : List String), generate_keys cfg rng fuel = .ok ks →
      ks.length = cfg.count := by
    intro cfg rng fuel ks h
    cases hb : build_alphabet cfg.alphabet cfg.avoid_ambiguous with
    | error e =>
      unfold generate_keys at h
      rw [hb] at h
      simp at h
    | ok alph =>
      unfold generate_keys at h
      rw [hb] at h
      dsimp only at h
      split at h
      · simp at h
      · exact gen_loop_ok_length fuel 0 [] [] ks (Nat.zero_le _) h
  refine ⟨hmain, ?_⟩
  intro cfg rng alph hu hb
  have hnocap : ¬(cfg.unique = true ∧
      capacity_estimate alph.data.length (keyspace_length cfg) ≠ 10 ^ 18 ∧
      capacity_estimate alph.data.length (keyspace_length cfg) < cfg.count) := by
    intro hc
    rw [hu] at hc
    exact Bool.false_ne_true hc.1
  obtain ⟨ks, hks⟩ := @gen_loop_total cfg alph rng hu
    cfg.count 0 [] [] (by simp)
  refine ⟨ks, ?_, ?_⟩
  · unfold generate_keys
    rw [hb]
    dsimp only
    rw [if_neg hnocap]
    exact hks
  · exact gen_loop_ok_length cfg.count 0 [] [] ks (Nat.zero_le _) hks

/-- C1 witness: a concrete unique=true run over the alphabet AB with the
random stream that returns the attempt index: it terminates with exactly
count = 2 keys. -/
theorem generate_keys_count_witness :
    generate_keys cfgW rngW 2 = .ok ["A", "B"] ∧
    (["A", "B"] : List String).length = cfgW.count :=
  ⟨by decide, generate_keys_count.1 cfgW rngW 2 ["A", "B"] (by decide)⟩

/-- C2: when unique=true, every successful result of generate_keys is a
list of pairwise distinct keys (a key equal to an already accepted one is
rejected and resampled). -/
theorem generate_keys_unique_nodup (cfg : GenConfig) (rng : Nat → Nat → Nat)
    (fuel : Nat) (ks : List String) (hu : cfg.unique = true)
    (h : generate_keys cfg rng fuel = .ok ks) : ks.Nodup := by
  cases hb : build_alphabet cfg.alphabet cfg.avoid_ambiguous with
  | error e =>
    unfold generate_keys at h
    rw [hb] at h
    simp at h
  | ok alph =>
    unfold generate_keys at h
    rw [hb] at h
    dsimp only at h
    split at h
    · simp at h
    · exact gen_loop_nodup hu fuel 0 [] [] ks List.nodup_nil (by simp) h

/-- C2 witness: the concrete unique=true run of the C1 witness produces
pairwise distinct keys. -/
theorem generate_keys_unique_nodup_witness : (["A", "B"] : List String).Nodup :=
  generate_keys_unique_nodup cfgW rngW 2 ["A", "B"] (by decide) (by decide)

/-- C3: given that the alphabet builds successfully, generate_keys fails
with CapacityExceeded exactly when unique is set, the estimated capacity
is strictly below the 10^18 ceiling and count exceeds it, where the
estimate is min(alphabetSize ^ keyspaceLength, 10^18) and keyspace_length
counts pattern placeholders in pattern mode and is the length otherwise;
the check precedes the loop, so the failure carries no keys. -/
theorem generate_keys_capacity_spec :
    (∀ (cfg : GenConfig) (rng : Nat → Nat → Nat) (fuel : Nat) (alph : String),
      build_alphabet cfg.alphabet cfg.avoid_ambiguous = .ok alph →
      (generate_keys cfg rng fuel = .error .capacityExceeded ↔
        cfg.unique = true ∧
        capacity_estimate alph.data.length (keyspace_length cfg) < 10 ^ 18 ∧
        capacity_estimate alph.data.length (keyspace_length cfg) < cfg.count)) ∧
    (∀ a k : Nat, capacity_estimate a k = min (a ^ k) (10 ^ 18)) := by
  refine ⟨?_, capacity_estimate_eq_min⟩
  intro cfg rng fuel alph hb
  unfold generate_keys
  rw [hb]
  dsimp only
  constructor
  · intro h
    split at h
    · rename_i hcond
      obtain ⟨h1, h2, h3⟩ := hcond
      have hle := capacity_estimate_le alph.data.length (keyspace_length cfg)
      exact ⟨h1, by omega, h3⟩
    · exact absurd h (gen_loop_ne_capacity fuel 0 [] [])
  · rintro ⟨h1, h2, h3⟩
    rw [if_pos ⟨h1, by omega, h3⟩]

/-- C3 witness: alphabet AB, length 1, unique=true, count 3: the estimate
is 2, strictly below the ceiling and below the count, so the run fails
with CapacityExceeded. -/
theorem generate_keys_capacity_spec_witness :
    generate_keys cfgC3 rngW 5 = .error .capacityExceeded :=
  (generate_keys_capacity_spec.1 cfgC3 rngW 5 "AB" (by decide)).mpr (by decide)

/-- C4 counterexample: with pattern "aX" (lower-case literal) and the
default uppercase=true, the generated key is "AA": the literal character
a of the pattern is not preserved at position 0, so the key does not
match the claimed template shape. -/
theorem pattern_literal_not_preserved :
    generate_keys cfgC4 rng0 1 = .ok ["AA"] ∧
    template_shape "aX" "AB" "AA" = false := by decide

/-- C4 amended: in pattern mode every returned key matches the template
shape up to the configured uppercasing: each literal character of the
pattern appears uppercase-if-configured at its original position, and
each placeholder position holds the uppercase-if-configured image of an
alphabet character (with uppercase=false this is exactly the original
claim). -/
theorem generate_keys_pattern_shape (cfg : GenConfig) (rng : Nat → Nat → Nat)
    (fuel : Nat) (ks : List String) (alph p : String)
    (hb : build_alphabet cfg.alphabet cfg.avoid_ambiguous = .ok alph)
    (hp : patternOf cfg = some p)
    (h : generate_keys cfg rng fuel = .ok ks) :
    ∀ k ∈ ks, template_shape_upper p alph cfg.uppercase k = true := by
  intro k hk
  have hgl : gen_loop cfg alph rng fuel 0 [] [] = .ok ks := by
    unfold generate_keys at h
    rw [hb] at h
    dsimp only at h
    split at h
    · simp at h
    · exact h
  rcases gen_loop_mem_origin fuel 0 [] [] ks hgl k hk with hmem | ⟨a, rfl⟩
  · simp at hmem
  · exact generate_one_pattern hp (build_alphabet_ok_ne_nil hb) (rng a)

/-- C4 amended witness: the concrete pattern-mode run of the
counterexample satisfies the uppercasing-aware shape predicate. -/
theorem generate_keys_pattern_shape_witness :
    template_shape_upper "aX" "AB" cfgC4.uppercase "AA" = true :=
  generate_keys_pattern_shape cfgC4 rng0 1 ["AA"] "AB" "aX" (by decide) (by decide)
    (by decide) "AA" (by decide)

/-- C5 counterexample: in fixed-length mode with alphabet "ab" and the
default uppercase=true, the returned key is "A", whose only character is
not a character of the configured alphabet, refuting the claimed shape. -/
theorem fixed_mode_alphabet_violated :
    generate_keys cfgC5 rng0 1 = .ok ["A"] ∧ ¬ fixed_shape "ab" "-" 1 0 "A" := by
  refine ⟨by decide, ?_⟩
  rintro ⟨raw, hlen, hmem, heq⟩
  rw [apply_grouping_le_zero le_rfl] at heq
  subst heq
  exact absurd (hmem 'A' (by decide)) (by decide)

/-- C5 amended: in fixed-length mode every returned key is the
uppercase-if-configured image of the grouping of a raw string of exactly
cfg.length alphabet characters; consequently its length is length plus
sep-length times (ceil(length / groupsize) - 1) when groupsize is
positive, and exactly length otherwise (with uppercase=false this is
exactly the original claim). -/
theorem generate_keys_fixed_shape (cfg : GenConfig) (rng : Nat → Nat → Nat)
    (fuel : Nat) (ks : List String) (alph : String)
    (hb : build_alphabet cfg.alphabet cfg.avoid_ambiguous = .ok alph)
    (hp : patternOf cfg = none)
    (h : generate_keys cfg rng fuel = .ok ks) :
    ∀ k ∈ ks, ∃ raw : String, raw.length = cfg.length ∧
      (∀ c ∈ raw.data, c ∈ alph.data) ∧
      k = upperIf cfg.uppercase (apply_grouping raw cfg.groupsize cfg.sep) ∧
      k.length = (if 0 < cfg.groupsize then
          cfg.length +
            cfg.sep.length * ((cfg.length + cfg.groupsize.toNat - 1) / cfg.groupsize.toNat - 1)
        else cfg.length) := by
  intro k hk
  have hgl : gen_loop cfg alph rng fuel 0 [] [] = .ok ks := by
    unfold generate_keys at h
    rw [hb] at h
    dsimp only at h
    split at h
    · simp at h
    · exact h
  rcases gen_loop_mem_origin fuel 0 [] [] ks hgl k hk with hmem | ⟨a, rfl⟩
  · simp at hmem
  · obtain ⟨raw, hlen, hmem, heq⟩ :=
      generate_one_fixed hp (build_alphabet_ok_ne_nil hb) (rng a)
    refine ⟨raw, hlen, hmem, heq, ?_⟩
    rw [heq, upperIf_length]
    split
    · rename_i hgs
      rw [apply_grouping_length_pos hgs, hlen]
    · rename_i hgs
      rw [apply_grouping_le_zero (by omega), hlen]

/-- C5 amended witness: the concrete fixed-length run of the
counterexample satisfies the amended shape statement. -/
theorem generate_keys_fixed_shape_witness :
    ∃ raw : String, raw.length = cfgC5.length ∧
      (∀ c ∈ raw.data, c ∈ ("ab" : String).data) ∧
      ("A" : String) = upperIf cfgC5.uppercase
        (apply_grouping raw cfgC5.groupsize cfgC5.sep) ∧
      ("A" : String).length = (if 0 < cfgC5.groupsize then
          cfgC5.length +
            cfgC5.sep.length * ((cfgC5.length + cfgC5.groupsize.toNat - 1) / cfgC5.groupsize.toNat - 1)
        else cfgC5.length) :=
  generate_keys_fixed_shape cfgC5 rng0 1 ["A"] "ab" (by decide) (by decide)
    (by decide) "A" (by decide)

/-- C6 counterexample: the dispatcher of save_keys rejects the format
token "text" with the unknown-format failure (the accepted token is
"txt"), and accepts "TXT", which is not literally one of the three
claimed values, after lowercasing. -/
theorem save_keys_dispatch_text_fails :
    save_keys_dispatch "text" = .error .unsupportedFormat ∧
    save_keys_dispatch "TXT" = .ok .txt := by decide

/-- C6 amended: save_keys lowercases and strips the format token and then
dispatches exactly the tokens txt, csv and json to the three serializers,
failing with the unknown-format error for every other normalized value
(in particular the spelled-out token "text" fails). -/
theorem save_keys_dispatch_spec :
    ∀ fmt : String,
      (save_keys_dispatch fmt = .error .unsupportedFormat ↔
        ¬(normalize_format fmt = "txt" ∨ normalize_format fmt = "csv" ∨
          normalize_format fmt = "json")) ∧
      (normalize_format fmt = "txt" → save_keys_dispatch fmt = .ok .txt) ∧
      (normalize_format fmt = "csv" → save_keys_dispatch fmt = .ok .csv) ∧
      (normalize_format fmt = "json" → save_keys_dispatch fmt = .ok .json) := by
  intro fmt
  simp only [save_keys_dispatch]
  split_ifs with h1 h2 h3 <;> refine ⟨?_, ?_, ?_, ?_⟩ <;> simp_all

/-- C6 witness: the token json is dispatched to the json serializer. -/
theorem save_keys_dispatch_spec_witness : save_keys_dispatch "json" = .ok .json :=
  (save_keys_dispatch_spec "json").2.2.2 (by decide)

/-- C7: apply_grouping returns the input unchanged for non-positive group
sizes; for positive group sizes it joins with the separator the
consecutive chunks of the input, where the chunks concatenate back to the
input, every chunk is non-empty of size at most groupsize, and every
chunk except possibly the last has size exactly groupsize; on the
spec's example it yields ABC-DEF-GHI-J. -/
theorem apply_grouping_spec :
    (∀ (raw : String) (gs : Int) (sep : String), gs ≤ 0 →
      apply_grouping raw gs sep = raw) ∧
    (∀ (raw : String) (gs : Int) (sep : String), 0 < gs →
      apply_grouping raw gs sep = ⟨joinSep sep.data (chunkList gs.toNat raw.data)⟩ ∧
      (chunkList gs.toNat raw.data).flatten = raw.data ∧
      (∀ part ∈ chunkList gs.toNat raw.data, part ≠ [] ∧ part.length ≤ gs.toNat) ∧
      (∀ (i : Nat) (hi : i + 1 < (chunkList gs.toNat raw.data).length),
        ((chunkList gs.toNat raw.data).get ⟨i, Nat.lt_of_succ_lt hi⟩).length = gs.toNat)) ∧
    apply_grouping "ABCDEFGHIJ" 3 "-" = "ABC-DEF-GHI-J" := by
  refine ⟨fun raw gs sep h => apply_grouping_le_zero h raw sep, ?_, by decide⟩
  intro raw gs sep hgs
  have hg : 0 < gs.toNat := by omega
  refine ⟨apply_grouping_pos hgs raw sep, chunkList_flatten hg raw.data, ?_, ?_⟩
  · intro part hp
    exact ⟨(chunkList_mem hg hp).1, (chunkList_mem hg hp).2.1⟩
  · intro i hi
    exact chunkList_getElem hg raw.data i hi

/-- C7 witness: a negative group size leaves the string unchanged, and the
chunks of the spec's example concatenate back to it. -/
theorem apply_grouping_spec_witness :
    apply_grouping "ABCDE" (-2) "-" = "ABCDE" ∧
    (chunkList ((3 : Int).toNat) ("ABCDEFGHIJ" : String).data).flatten =
      ("ABCDEFGHIJ" : String).data :=
  ⟨apply_grouping_spec.1 "ABCDE" (-2) "-" (by decide),
    (apply_grouping_spec.2.1 "ABCDEFGHIJ" 3 "-" (by decide)).2.1⟩

/-- C8: whatever the input (custom or default), a successfully built
alphabet with avoid_ambiguous=true contains none of the characters
0 O 1 I L. -/
theorem build_alphabet_no_ambiguous (custom : Option String) (a : String)
    (h : build_alphabet custom true = .ok a) : ∀ c ∈ a.data, c ∉ AMBIGUOUS := by
  obtain ⟨hd, _⟩ := build_alphabet_ok_data h
  intro c hc hca
  rw [hd] at hc
  simp only [normalize_alphabet, if_pos rfl] at hc
  have hc2 : c ∈ List.foldl removeChar (pyDedup (base_alphabet custom true).data)
      AMBIGUOUS := List.mem_of_mem_filter hc
  exact (mem_foldl_removeChar AMBIGUOUS _ c hc2).2 c hca rfl

/-- C8 witness: the custom alphabet abc builds successfully with
avoid_ambiguous=true and its character a is not ambiguous. -/
theorem build_alphabet_no_ambiguous_witness :
    build_alphabet (some "abc") true = .ok "abc" ∧ ('a' : Char) ∉ AMBIGUOUS :=
  ⟨by decide,
    build_alphabet_no_ambiguous (some "abc") "abc" (by decide) 'a' (by decide)⟩

/-- C9: build_alphabet fails with InvalidAlphabet exactly when the
normalization pipeline (first-occurrence deduplication, removal of
0 O 1 I L when avoid_ambiguous=true, whitespace stripping) leaves fewer
than 2 characters; in particular the input 0O1IL with
avoid_ambiguous=true normalizes to the empty list and fails. -/
theorem build_alphabet_invalid_iff :
    (∀ (custom : Option String) (avoid : Bool),
      build_alphabet custom avoid = .error .invalidAlphabet ↔
        (normalize_alphabet custom avoid).length < 2) ∧
    build_alphabet (some "0O1IL") true = .error .invalidAlphabet ∧
    normalize_alphabet (some "0O1IL") true = [] := by
  refine ⟨?_, by decide, by decide⟩
  intro custom avoid
  constructor
  · intro h
    by_contra hlen
    simp only [build_alphabet] at h
    rw [if_neg hlen] at h
    simp at h
  · intro hlen
    simp only [build_alphabet]
    rw [if_pos hlen]

/-- C10: an empty custom alphabet string is treated like an absent one:
build_alphabet falls back to the built-in default for the
avoid_ambiguous flag and succeeds with it. -/
theorem build_alphabet_empty_custom_default :
    build_alphabet (some "") true = build_alphabet none true ∧
    build_alphabet (some "") false = build_alphabet none false ∧
    build_alphabet (some "") true = .ok DEFAULT_ALPHABET_NO_AMBIG ∧
    build_alphabet (some "") false = .ok DEFAULT_ALPHABET_FULL :=
  ⟨rfl, rfl, by decide, by decide⟩

end CDKeyGener
